import Mathlib

/-!
Verification of the `temperature_api` Go package (file `temperature_api.go`):
an in-memory per-device time-series store with two operations,
`PostTemperature` (Record) and `GetTemperature` (Query).

Modelling choices:
* `time.Time` values are modelled as `Int` (`Before`/`After` are `<`/`>`);
  `float64` temperatures are modelled as `Int` — they are only carried,
  never computed on, so any type with decidable equality is faithful.
* The Go map `map[string]DeviceData` is modelled as an association list
  with unique keys; `m[k]` (zero value on miss) and `m[k] = v` are
  `getData`/`setData`.
* `sort.Slice` with comparator `Timestamp.Before` guarantees exactly a
  permutation of the input that is non-decreasing by timestamp (it is not
  stable); we model it by `List.insertionSort`, a deterministic refinement
  producing one such permutation.
* `sort.Search` is modelled by `sortSearch`, a literal transcription of
  Go's binary search loop.
* Errors are the `errors.New` message strings of the source.
* The mutex only serialises calls; sequential semantics model each call as
  a pure state transformer: `PostTemperature` returns the new store plus
  the `error` result, `GetTemperature` is read-only.
-/

namespace TemperatureApi

/-- Instants, modelling `time.Time` with its total order. -/
abbrev Time := Int

/-- Temperatures, modelling `float64` values that are only stored and
returned, never computed on. -/
abbrev Temp := Int

/-- `DataPoint`: one timestamped temperature reading. -/
structure DataPoint where
  timestamp : Time
  temperature : Temp
deriving DecidableEq, Repr

instance : Inhabited DataPoint := ⟨⟨0, 0⟩⟩

/-- `DeviceData`: per-device type tag plus ordered sample sequence. -/
structure DeviceData where
  deviceType : String
  dataPoints : List DataPoint
deriving DecidableEq, Repr

/-- `ResponseBody`: `DeviceData` (embedded) plus the device ID. -/
structure ResponseBody where
  deviceType : String
  dataPoints : List DataPoint
  deviceID : String
deriving DecidableEq, Repr

/-- The store: `map[string]DeviceData`, as an association list. -/
abbrev Store := List (String × DeviceData)

/-- The Go zero value of `DeviceData`. -/
def emptyDeviceData : DeviceData := ⟨"", []⟩

/-- Map lookup `server.Data[k]` presence: `some` iff the key is present. -/
def getData : Store → String → Option DeviceData
  | [], _ => none
  | (k, v) :: rest, d => if k = d then some v else getData rest d

/-- Map assignment `server.Data[k] = v`: replace if present, else add. -/
def setData : Store → String → DeviceData → Store
  | [], d, v => [(d, v)]
  | (k, w) :: rest, d, v =>
      if k = d then (d, v) :: rest else (k, w) :: setData rest d v

/-- `server.Init()`: reset to an empty mapping. -/
def emptyStore : Store := []

/-- The comparator of the `sort.Slice` call (as a non-strict order: a list
is sorted by `Timestamp.Before` iff it is `Pairwise tsLe`). -/
def tsLe (a b : DataPoint) : Prop := a.timestamp ≤ b.timestamp

instance : DecidableRel tsLe := fun a b =>
  inferInstanceAs (Decidable (a.timestamp ≤ b.timestamp))

instance : IsTotal DataPoint tsLe :=
  ⟨fun a b => Int.le_total a.timestamp b.timestamp⟩

instance : IsTrans DataPoint tsLe :=
  ⟨fun _ _ _ h1 h2 => le_trans h1 h2⟩

/-- `const MaxDataPoints = 10000` — defined in the source, never used. -/
def MaxDataPoints : Nat := 10000

/-- `PostTemperature` (the Record operation): validate the device ID and
type, read the device's record (zero value if absent), overwrite the type,
append the new sample, sort by timestamp, store back. Returns the new
store plus the Go `error` result. -/
def PostTemperature (server : Store) (sensorID deviceType : String)
    (sampleTime : Time) (temperature : Temp) : Store × Option String :=
  if sensorID = "" then (server, some "device ID cannot be empty")
  else if deviceType = "" then (server, some "device type cannot be empty")
  else
    let deviceData := (getData server sensorID).getD emptyDeviceData
    let dataPoints :=
      List.insertionSort tsLe (deviceData.dataPoints ++ [⟨sampleTime, temperature⟩])
    (setData server sensorID ⟨deviceType, dataPoints⟩, none)

/-- Go's `sort.Search` loop: binary search narrowing `[i, j)` until
`i = j`. The loop runs at most `j - i` iterations (`j - i` shrinks each
time), so an explicit iteration budget of the initial `j - i` makes the
transcription structural without changing any value it computes. -/
def searchGo (f : Nat → Bool) : Nat → Nat → Nat → Nat
  | 0, i, _ => i
  | fuel + 1, i, j =>
    if i < j then
      if f ((i + j) / 2) then searchGo f fuel i ((i + j) / 2)
      else searchGo f fuel ((i + j) / 2 + 1) j
    else i

/-- `sort.Search(n, f)`. -/
def sortSearch (n : Nat) (f : Nat → Bool) : Nat := searchGo f n 0 n

/-- `GetTemperature` (the Query operation): validate the ID, require the
device to exist, require `start ≤ end`, handle the defensive zero-sample
case, the fully-out-of-range fast path (returning the zero `ResponseBody`),
then locate the slice bounds by two binary searches. -/
def GetTemperature (server : Store) (deviceID : String)
    (startTime endTime : Time) : Except String ResponseBody :=
  if deviceID = "" then .error "device ID cannot be empty"
  else
    match getData server deviceID with
    | none => .error "no data for this device ID"
    | some data =>
      if endTime < startTime then .error "end time cannot be before start time"
      else if data.dataPoints.length = 0 then
        .ok ⟨data.deviceType, [], deviceID⟩
      else
        let left := (data.dataPoints.headD default).timestamp
        let right := (data.dataPoints.getLastD default).timestamp
        if right < startTime ∨ endTime < left then
          .ok ⟨"", [], ""⟩
        else
          let startIndex := sortSearch data.dataPoints.length
            (fun i => !decide ((data.dataPoints.getD i default).timestamp < startTime))
          let endIndex := sortSearch data.dataPoints.length
            (fun i => decide (endTime < (data.dataPoints.getD i default).timestamp))
          .ok ⟨data.deviceType,
            (data.dataPoints.take endIndex).drop startIndex, deviceID⟩

/-- A successful Record call, for reachability traces. -/
structure RecordCall where
  id : String
  ty : String
  t : Time
  v : Temp
deriving DecidableEq, Repr

/-- Stores reachable from `Init` by Record calls (`Query` is read-only);
the trace lists the successful calls in order. -/
inductive ReachableVia : Store → List RecordCall → Prop
  | init : ReachableVia emptyStore []
  | postOk {s tr s'} (id ty : String) (t : Time) (v : Temp) :
      ReachableVia s tr → PostTemperature s id ty t v = (s', none) →
      ReachableVia s' (tr ++ [⟨id, ty, t, v⟩])
  | postFail {s tr} (id ty : String) (t : Time) (v : Temp) :
      ReachableVia s tr → (PostTemperature s id ty t v).2 ≠ none →
      ReachableVia (PostTemperature s id ty t v).1 tr

/-- A reachable store. -/
def Reachable (s : Store) : Prop := ∃ tr, ReachableVia s tr

/-- The timestamp-interval membership predicate of a query. -/
def inRange (startT endT : Time) (p : DataPoint) : Bool :=
  decide (startT ≤ p.timestamp ∧ p.timestamp ≤ endT)

/-- The data point a Record call stores. -/
def RecordCall.sample (c : RecordCall) : DataPoint := ⟨c.t, c.v⟩

/-- Run a sequence of Record calls against a store, keeping each resulting
store (a failing call leaves the store unchanged). -/
def runPosts (s : Store) (calls : List RecordCall) : Store :=
  calls.foldl (fun st c => (PostTemperature st c.id c.ty c.t c.v).1) s

/-! ### Association-list store lemmas -/

theorem getData_setData_self (s : Store) (d : String) (v : DeviceData) :
    getData (setData s d v) d = some v := by
  induction s with
  | nil => simp [setData, getData]
  | cons kv rest ih =>
    obtain ⟨k, w⟩ := kv
    by_cases h : k = d <;> simp [setData, getData, h, ih]

theorem getData_setData_ne (s : Store) {d d2 : String} (v : DeviceData)
    (h : d2 ≠ d) : getData (setData s d v) d2 = getData s d2 := by
  induction s with
  | nil => simp [setData, getData, Ne.symm h]
  | cons kv rest ih =>
    obtain ⟨k, w⟩ := kv
    by_cases hk : k = d
    · subst hk
      simp [setData, getData, Ne.symm h]
    · simp [setData, getData, hk, ih]

/-! ### PostTemperature inversion -/

/-- A Record call succeeds exactly when both strings are non-empty, and
then the new store is the old one with the device entry rebuilt: type
overwritten, new sample appended, list re-sorted. -/
theorem post_ok_iff {s : Store} {id ty : String} {t : Time} {v : Temp}
    {s' : Store} :
    PostTemperature s id ty t v = (s', none) ↔
      id ≠ "" ∧ ty ≠ "" ∧
      s' = setData s id ⟨ty, List.insertionSort tsLe
        (((getData s id).getD emptyDeviceData).dataPoints ++ [⟨t, v⟩])⟩ := by
  unfold PostTemperature
  by_cases h1 : id = "" <;> by_cases h2 : ty = "" <;>
    simp [h1, h2, Prod.ext_iff, eq_comm]

/-- A failing Record call leaves the store exactly as it was. -/
theorem post_fail_state {s : Store} {id ty : String} {t : Time} {v : Temp}
    (h : (PostTemperature s id ty t v).2 ≠ none) :
    (PostTemperature s id ty t v).1 = s := by
  unfold PostTemperature at *
  by_cases h1 : id = "" <;> by_cases h2 : ty = "" <;> simp_all

/-! ### Binary search (`sort.Search`) correctness -/

/-- `searchGo` on `[i, j)` with enough fuel and a predicate monotone below
`j` returns the least index at which the predicate holds (`j` if none). -/
theorem searchGo_spec (f : Nat → Bool) :
    ∀ (fuel i j : Nat), i ≤ j → j - i ≤ fuel →
    (∀ a b, a ≤ b → b < j → f a = true → f b = true) →
    i ≤ searchGo f fuel i j ∧ searchGo f fuel i j ≤ j ∧
    (∀ k, i ≤ k → k < searchGo f fuel i j → f k = false) ∧
    (searchGo f fuel i j < j → f (searchGo f fuel i j) = true) := by
  intro fuel
  induction fuel with
  | zero =>
    intro i j hij hfuel _
    have hj : i = j := by omega
    subst hj
    simp only [searchGo]
    exact ⟨Nat.le_refl i, Nat.le_refl i,
      fun k hk1 hk2 => absurd hk2 (by omega),
      fun hlt => absurd hlt (by omega)⟩
  | succ fuel ih =>
    intro i j hij hfuel hmono
    by_cases hlt : i < j
    · have hm1 : i ≤ (i + j) / 2 := by omega
      have hm2 : (i + j) / 2 < j := by omega
      by_cases hf : f ((i + j) / 2) = true
      · have hrec := ih i ((i + j) / 2) hm1 (by omega)
          (fun a b hab hb => hmono a b hab (by omega))
        rw [searchGo, if_pos hlt, if_pos hf]
        obtain ⟨h1, h2, h3, h4⟩ := hrec
        refine ⟨h1, by omega, h3, fun _ => ?_⟩
        rcases Nat.lt_or_ge (searchGo f fuel i ((i + j) / 2)) ((i + j) / 2)
          with hc | hc
        · exact h4 hc
        · have : searchGo f fuel i ((i + j) / 2) = (i + j) / 2 := by omega
          rw [this]; exact hf
      · have hrec := ih ((i + j) / 2 + 1) j (by omega) (by omega) hmono
        rw [searchGo, if_pos hlt, if_neg hf]
        obtain ⟨h1, h2, h3, h4⟩ := hrec
        refine ⟨by omega, h2, ?_, h4⟩
        intro k hk1 hk2
        rcases Nat.lt_or_ge k ((i + j) / 2 + 1) with hc | hc
        · rcases Bool.eq_false_or_eq_true (f k) with hfk | hfk
          · exact absurd (hmono k ((i + j) / 2) (by omega) hm2 hfk) hf
          · exact hfk
        · exact h3 k hc hk2
    · have hj : i = j := by omega
      subst hj
      rw [searchGo, if_neg hlt]
      exact ⟨Nat.le_refl i, Nat.le_refl i,
        fun k hk1 hk2 => absurd hk2 (by omega),
        fun hlt2 => absurd hlt2 (by omega)⟩

/-! ### Slices of sorted lists -/

/-- If everything below index `r` satisfies `p` and the element at `r`
(when there is one) fails it, `take r` is `takeWhile p`. -/
theorem take_eq_takeWhile_of {α : Type} (p : α → Bool) :
    ∀ (l : List α) (r : Nat), r ≤ l.length →
    (∀ (k : Nat) (hk : k < l.length), k < r → p l[k] = true) →
    (∀ hr : r < l.length, p l[r] = false) →
    l.take r = l.takeWhile p
  | [], r, _, _, _ => by simp
  | x :: xs, 0, _, _, hr => by
    have : p x = false := hr (by simp)
    simp [List.takeWhile_cons, this]
  | x :: xs, r + 1, hle, hlow, hr => by
    have hx : p x = true := hlow 0 (by simp) (by omega)
    rw [List.take_succ_cons, List.takeWhile_cons, hx]
    simp only [if_pos]
    congr 1
    exact take_eq_takeWhile_of p xs r (by simpa using hle)
      (fun k hk hkr => hlow (k + 1) (by simpa using hk) (by omega))
      (fun hr2 => hr (by simpa using hr2))

/-- If everything below index `r` satisfies `p` and the element at `r`
(when there is one) fails it, `drop r` is `dropWhile p`. -/
theorem drop_eq_dropWhile_of {α : Type} (p : α → Bool) :
    ∀ (l : List α) (r : Nat), r ≤ l.length →
    (∀ (k : Nat) (hk : k < l.length), k < r → p l[k] = true) →
    (∀ hr : r < l.length, p l[r] = false) →
    l.drop r = l.dropWhile p
  | [], r, _, _, _ => by simp
  | x :: xs, 0, _, _, hr => by
    have : p x = false := hr (by simp)
    simp [List.dropWhile_cons, this]
  | x :: xs, r + 1, hle, hlow, hr => by
    have hx : p x = true := hlow 0 (by simp) (by omega)
    rw [List.drop_succ_cons, List.dropWhile_cons, hx]
    simp only [if_pos]
    exact drop_eq_dropWhile_of p xs r (by simpa using hle)
      (fun k hk hkr => hlow (k + 1) (by simpa using hk) (by omega))
      (fun hr2 => hr (by simpa using hr2))

/-- On a `Pairwise r` list, `takeWhile p` equals `filter p` when `p` is
downward closed along `r`. -/
theorem takeWhile_eq_filter_of {α : Type} {r : α → α → Prop} {p : α → Bool}
    (hdc : ∀ a b, r a b → p b = true → p a = true) :
    ∀ l : List α, l.Pairwise r → l.takeWhile p = l.filter p
  | [], _ => by simp
  | x :: xs, hp => by
    obtain ⟨hx, hxs⟩ := List.pairwise_cons.mp hp
    by_cases hpx : p x = true
    · rw [List.takeWhile_cons, hpx, List.filter_cons_of_pos hpx]
      simp only [if_pos]
      congr 1
      exact takeWhile_eq_filter_of hdc xs hxs
    · have hpx' : p x = false := by simpa using hpx
      rw [List.takeWhile_cons, hpx',
        List.filter_cons_of_neg (by simp [hpx'])]
      simp only [Bool.false_eq_true, if_false]
      symm
      rw [List.filter_eq_nil_iff]
      intro a ha hpa
      exact hpx (hdc x a (hx a ha) hpa)

/-- On a `Pairwise r` list, `dropWhile p` equals `filter (!p ·)` when `p`
is downward closed along `r`. -/
theorem dropWhile_eq_filter_of {α : Type} {r : α → α → Prop} {p : α → Bool}
    (hdc : ∀ a b, r a b → p b = true → p a = true) :
    ∀ l : List α, l.Pairwise r → l.dropWhile p = l.filter (fun a => !p a)
  | [], _ => by simp
  | x :: xs, hp => by
    obtain ⟨hx, hxs⟩ := List.pairwise_cons.mp hp
    by_cases hpx : p x = true
    · rw [List.dropWhile_cons, hpx,
        List.filter_cons_of_neg (by simp [hpx])]
      simp only [if_pos]
      exact dropWhile_eq_filter_of hdc xs hxs
    · have hpx' : p x = false := by simpa using hpx
      rw [List.dropWhile_cons, hpx',
        List.filter_cons_of_pos (by simp [hpx'])]
      simp only [Bool.false_eq_true, if_false]
      congr 1
      symm
      rw [List.filter_eq_self]
      intro a ha
      rcases Bool.eq_false_or_eq_true (p a) with hpa | hpa
      · exact absurd (hdc x a (hx a ha) hpa) hpx
      · simp [hpa]

/-- First element of a non-empty list via `headD`. -/
theorem headD_eq_getElem {α : Type} [Inhabited α] :
    ∀ (l : List α) (h : l ≠ []),
      l.headD default = l.get ⟨0, by simpa using List.length_pos.mpr h⟩
  | _ :: _, _ => rfl

/-- Final element of a non-empty list via `getLastD`. -/
theorem getLastD_eq_getElem {α : Type} [Inhabited α] (l : List α)
    (h : l ≠ []) :
    l.getLastD default =
      l.get ⟨l.length - 1, by
        have := List.length_pos.mpr h
        omega⟩ := by
  rw [List.getLastD_eq_getLast?, List.getLast?_eq_getElem?,
    List.getElem?_eq_getElem (by have := List.length_pos.mpr h; omega)]
  rfl

/-- Pointwise form of the conjunction of the two search predicates. -/
theorem inRange_eq (startT endT : Time) (a : DataPoint) :
    (!decide (a.timestamp < startT) && decide (a.timestamp ≤ endT)) =
      inRange startT endT a := by
  unfold inRange
  by_cases h1 : a.timestamp < startT
  · simp [h1, not_le.2 h1]
  · by_cases h2 : a.timestamp ≤ endT
    · simp [h1, h2, not_lt.1 h1]
    · simp [h1, h2]

/-- Central characterization of the binary-search branch of
`GetTemperature`: on a sorted non-empty sample list, a query whose range
is valid and meets the data returns exactly the samples with timestamps
inside `[startT, endT]`, paired with the stored type and the device ID. -/
theorem getTemperature_eq_filter {s : Store} {d : String}
    {data : DeviceData} (hdne : d ≠ "") (hd : getData s d = some data)
    (hsorted : data.dataPoints.Pairwise tsLe)
    (hne : data.dataPoints ≠ [])
    {startT endT : Time} (hrange : startT ≤ endT)
    (hstart : startT ≤ (data.dataPoints.getLastD default).timestamp)
    (hend : (data.dataPoints.headD default).timestamp ≤ endT) :
    GetTemperature s d startT endT =
      .ok ⟨data.deviceType,
        data.dataPoints.filter (inRange startT endT), d⟩ := by
  have hts : ∀ (a b : Nat) (ha : a < data.dataPoints.length)
      (hb : b < data.dataPoints.length), a ≤ b →
      data.dataPoints[a].timestamp ≤ data.dataPoints[b].timestamp := by
    intro a b ha hb hab
    rcases Nat.lt_or_eq_of_le hab with h | h
    · exact List.pairwise_iff_getElem.mp hsorted a b ha hb h
    · subst h; exact le_refl _
  have hmono1 : ∀ a b, a ≤ b → b < data.dataPoints.length →
      (!decide ((data.dataPoints.getD a default).timestamp < startT)) = true →
      (!decide ((data.dataPoints.getD b default).timestamp < startT)) = true := by
    intro a b hab hb hfa
    have ha : a < data.dataPoints.length := lt_of_le_of_lt hab hb
    simp only [List.getD_eq_getElem data.dataPoints default ha,
      Bool.not_eq_true', decide_eq_false_iff_not, not_lt] at hfa
    simp only [List.getD_eq_getElem data.dataPoints default hb,
      Bool.not_eq_true', decide_eq_false_iff_not, not_lt]
    exact le_trans hfa (hts a b ha hb hab)
  have hmono2 : ∀ a b, a ≤ b → b < data.dataPoints.length →
      decide (endT < (data.dataPoints.getD a default).timestamp) = true →
      decide (endT < (data.dataPoints.getD b default).timestamp) = true := by
    intro a b hab hb hfa
    have ha : a < data.dataPoints.length := lt_of_le_of_lt hab hb
    simp only [List.getD_eq_getElem data.dataPoints default ha,
      decide_eq_true_eq] at hfa
    simp only [List.getD_eq_getElem data.dataPoints default hb,
      decide_eq_true_eq]
    exact lt_of_lt_of_le hfa (hts a b ha hb hab)
  obtain ⟨-, hr1n, hlow1, hhigh1⟩ :=
    searchGo_spec
      (fun i => !decide ((data.dataPoints.getD i default).timestamp < startT))
      data.dataPoints.length 0 data.dataPoints.length (Nat.zero_le _)
      (le_refl _) hmono1
  obtain ⟨-, hr2n, hlow2, hhigh2⟩ :=
    searchGo_spec
      (fun i => decide (endT < (data.dataPoints.getD i default).timestamp))
      data.dataPoints.length 0 data.dataPoints.length (Nat.zero_le _)
      (le_refl _) hmono2
  set r1 := searchGo
    (fun i => !decide ((data.dataPoints.getD i default).timestamp < startT))
    data.dataPoints.length 0 data.dataPoints.length with hr1def
  set r2 := searchGo
    (fun i => decide (endT < (data.dataPoints.getD i default).timestamp))
    data.dataPoints.length 0 data.dataPoints.length with hr2def
  have hlow1' : ∀ (k : Nat) (hk : k < data.dataPoints.length), k < r1 →
      data.dataPoints[k].timestamp < startT := by
    intro k hk hkr
    have h0 := hlow1 k (Nat.zero_le k) hkr
    rw [List.getD_eq_getElem data.dataPoints default hk, Bool.not_eq_false',
      decide_eq_true_eq] at h0
    exact h0
  have hhigh1' : ∀ hr : r1 < data.dataPoints.length,
      startT ≤ data.dataPoints[r1].timestamp := by
    intro hr
    have h0 := hhigh1 hr
    rw [List.getD_eq_getElem data.dataPoints default hr, Bool.not_eq_true',
      decide_eq_false_iff_not, not_lt] at h0
    exact h0
  have hlow2' : ∀ (k : Nat) (hk : k < data.dataPoints.length), k < r2 →
      data.dataPoints[k].timestamp ≤ endT := by
    intro k hk hkr
    have h0 := hlow2 k (Nat.zero_le k) hkr
    rw [List.getD_eq_getElem data.dataPoints default hk,
      decide_eq_false_iff_not, not_lt] at h0
    exact h0
  have hhigh2' : ∀ hr : r2 < data.dataPoints.length,
      endT < data.dataPoints[r2].timestamp := by
    intro hr
    have h0 := hhigh2 hr
    rw [List.getD_eq_getElem data.dataPoints default hr,
      decide_eq_true_eq] at h0
    exact h0
  have hr12 : r1 ≤ r2 := by
    by_contra hcon
    have hr2lt : r2 < data.dataPoints.length := by omega
    have h1 := hhigh2' hr2lt
    have h2 := hlow1' r2 hr2lt (by omega)
    exact absurd hrange (not_le.2 (lt_trans h1 h2))
  have htake : data.dataPoints.take r2 =
      data.dataPoints.takeWhile (fun p => decide (p.timestamp ≤ endT)) := by
    refine take_eq_takeWhile_of _ data.dataPoints r2 hr2n ?_ ?_
    · intro k hk hkr
      simpa using hlow2' k hk hkr
    · intro hr
      simpa [not_le] using hhigh2' hr
  have htakeW : data.dataPoints.takeWhile (fun p => decide (p.timestamp ≤ endT)) =
      data.dataPoints.filter (fun p => decide (p.timestamp ≤ endT)) := by
    refine takeWhile_eq_filter_of ?_ data.dataPoints hsorted
    intro a b hab hb
    simp only [decide_eq_true_eq] at hb ⊢
    exact le_trans hab hb
  have hsorted_take : (data.dataPoints.take r2).Pairwise tsLe :=
    List.Pairwise.sublist (List.take_sublist r2 data.dataPoints) hsorted
  have hlen_take : (data.dataPoints.take r2).length = r2 := by
    simp [List.length_take]
    omega
  have hdrop : (data.dataPoints.take r2).drop r1 =
      (data.dataPoints.take r2).dropWhile (fun p => decide (p.timestamp < startT)) := by
    refine drop_eq_dropWhile_of _ (data.dataPoints.take r2) r1
      (by omega) ?_ ?_
    · intro k hk hkr
      have hk2 : k < data.dataPoints.length := by
        rw [hlen_take] at hk
        omega
      rw [List.getElem_take]
      simpa using hlow1' k hk2 (by omega)
    · intro hr
      rw [hlen_take] at hr
      have hr1lt : r1 < data.dataPoints.length := by omega
      rw [List.getElem_take]
      simpa [not_lt] using hhigh1' hr1lt
  have hdropW : (data.dataPoints.take r2).dropWhile
        (fun p => decide (p.timestamp < startT)) =
      (data.dataPoints.take r2).filter
        (fun p => !decide (p.timestamp < startT)) := by
    refine dropWhile_eq_filter_of ?_ _ hsorted_take
    intro a b hab hb
    simp only [decide_eq_true_eq] at hb ⊢
    exact lt_of_le_of_lt hab hb
  have hslice : (data.dataPoints.take r2).drop r1 =
      data.dataPoints.filter (inRange startT endT) := by
    rw [hdrop, hdropW, htake, htakeW, List.filter_filter]
    exact List.filter_congr fun a _ => inRange_eq startT endT a
  have h3 : ¬ endT < startT := not_lt.2 hrange
  have hlen0 : ¬ data.dataPoints.length = 0 := by
    simpa [List.length_eq_zero] using hne
  have hfast : ¬ ((data.dataPoints.getLastD default).timestamp < startT ∨
      endT < (data.dataPoints.headD default).timestamp) := by
    push_neg
    exact ⟨hstart, hend⟩
  simp only [GetTemperature, hd, if_neg hdne, if_neg h3, if_neg hlen0,
    if_neg hfast]
  rw [hr1def, hr2def] at hslice
  simp only [sortSearch]
  rw [hslice]

/-! ### Reachability invariants -/

/-- Store invariant: every stored entry belongs to a non-empty device ID,
holds at least one sample, is sorted, and carries the type supplied by the
latest successful Record call for that ID. -/
theorem reachable_entry {s : Store} {tr : List RecordCall}
    (h : ReachableVia s tr) :
    ∀ d dd, getData s d = some dd →
      d ≠ "" ∧ dd.dataPoints ≠ [] ∧ dd.dataPoints.Pairwise tsLe ∧
      ∃ c, (tr.filter (fun c => decide (c.id = d))).getLast? = some c ∧
        dd.deviceType = c.ty := by
  induction h with
  | init =>
    intro d dd hdd
    simp [getData, emptyStore] at hdd
  | postOk id ty t v hprev heq ih =>
    rename_i s tr s'
    obtain ⟨hid, hty, hs'⟩ := post_ok_iff.mp heq
    subst hs'
    intro d dd hdd
    by_cases hdi : d = id
    · subst hdi
      rw [getData_setData_self] at hdd
      have hX : dd = ⟨ty, List.insertionSort tsLe
          (((getData s d).getD emptyDeviceData).dataPoints ++ [⟨t, v⟩])⟩ :=
        (Option.some.inj hdd).symm
      subst hX
      refine ⟨hid, ?_, ?_, ?_⟩
      · apply List.length_pos.mp
        rw [(List.perm_insertionSort tsLe _).length_eq]
        simp
      · exact List.sorted_insertionSort tsLe _
      · refine ⟨⟨d, ty, t, v⟩, ?_, rfl⟩
        rw [List.filter_append]
        simp
    · rw [getData_setData_ne _ _ hdi] at hdd
      obtain ⟨h1, h2, h3, c, hc, hcty⟩ := ih d dd hdd
      refine ⟨h1, h2, h3, c, ?_, hcty⟩
      rw [List.filter_append]
      have : decide ((⟨id, ty, t, v⟩ : RecordCall).id = d) = false := by
        simp
        exact fun hh => hdi hh.symm
      simp [this, hc]
  | postFail id ty t v hprev hne2 ih =>
    intro d dd hdd
    rw [post_fail_state hne2] at hdd
    exact ih d dd hdd

/-- A device ID is a key of the store iff some Record call for it has
succeeded. -/
theorem reachable_keys {s : Store} {tr : List RecordCall}
    (h : ReachableVia s tr) :
    ∀ d, (∃ dd, getData s d = some dd) ↔ ∃ c ∈ tr, c.id = d := by
  induction h with
  | init =>
    intro d
    simp [getData, emptyStore]
  | postOk id ty t v hprev heq ih =>
    rename_i s tr s'
    obtain ⟨hid, hty, hs'⟩ := post_ok_iff.mp heq
    subst hs'
    intro d
    by_cases hdi : d = id
    · subst hdi
      rw [getData_setData_self]
      constructor
      · intro _
        exact ⟨⟨d, ty, t, v⟩, by simp, rfl⟩
      · intro _
        exact ⟨_, rfl⟩
    · rw [getData_setData_ne _ _ hdi, ih d]
      constructor
      · rintro ⟨c, hc, hcd⟩
        exact ⟨c, by simp [hc], hcd⟩
      · rintro ⟨c, hc, hcd⟩
        rcases List.mem_append.mp hc with h1 | h1
        · exact ⟨c, h1, hcd⟩
        · rw [List.mem_singleton] at h1
          subst h1
          exact absurd hcd.symm hdi
  | postFail id ty t v hprev hne2 ih =>
    intro d
    rw [post_fail_state hne2]
    exact ih d

/-! ### Folding Record calls -/

theorem runPosts_cons (s : Store) (c : RecordCall) (rest : List RecordCall) :
    runPosts s (c :: rest) =
      runPosts (PostTemperature s c.id c.ty c.t c.v).1 rest := rfl

/-- Folding successful Record calls for device `d` over a store already
holding an entry for `d` accumulates exactly the new samples (as a sorted
permutation). -/
theorem runPosts_entry {d : String} (hd : d ≠ "") :
    ∀ (rest : List RecordCall) (s : Store) (dd : DeviceData),
    getData s d = some dd →
    (∀ c ∈ rest, c.id = d ∧ c.ty ≠ "") →
    ∃ dd', getData (runPosts s rest) d = some dd' ∧
      dd'.dataPoints.Perm (dd.dataPoints ++ rest.map RecordCall.sample) ∧
      (dd.dataPoints.Pairwise tsLe → dd'.dataPoints.Pairwise tsLe)
  | [], s, dd, hdd, _ => ⟨dd, hdd, by simp, id⟩
  | c :: rest, s, dd, hdd, hcalls => by
    obtain ⟨hcid, hcty⟩ := hcalls c (by simp)
    have hget : (getData s c.id).getD emptyDeviceData = dd := by
      rw [hcid, hdd]
      rfl
    have hpost : PostTemperature s c.id c.ty c.t c.v =
        (setData s c.id ⟨c.ty,
          List.insertionSort tsLe (dd.dataPoints ++ [⟨c.t, c.v⟩])⟩, none) := by
      rw [post_ok_iff]
      exact ⟨by rw [hcid]; exact hd, hcty, by rw [hget]⟩
    have hget1 : getData (PostTemperature s c.id c.ty c.t c.v).1 d =
        some ⟨c.ty, List.insertionSort tsLe (dd.dataPoints ++ [⟨c.t, c.v⟩])⟩ := by
      rw [hpost]
      rw [show c.id = d from hcid]
      exact getData_setData_self ..
    obtain ⟨dd', hdd', hperm, hsortimp⟩ :=
      runPosts_entry hd rest (PostTemperature s c.id c.ty c.t c.v).1
        ⟨c.ty, List.insertionSort tsLe (dd.dataPoints ++ [⟨c.t, c.v⟩])⟩
        hget1 (fun c2 hc2 => hcalls c2 (by simp [hc2]))
    refine ⟨dd', by rw [runPosts_cons]; exact hdd', ?_, fun _ => ?_⟩
    · have h1 : (List.insertionSort tsLe (dd.dataPoints ++ [⟨c.t, c.v⟩])
          ++ rest.map RecordCall.sample).Perm
          ((dd.dataPoints ++ [⟨c.t, c.v⟩]) ++ rest.map RecordCall.sample) :=
        (List.perm_insertionSort tsLe _).append_right _
      have h2 := hperm.trans h1
      rw [List.append_assoc] at h2
      exact h2
    · exact hsortimp (List.sorted_insertionSort tsLe _)

/-! ### Membership of first and final elements -/

theorem headD_mem {α : Type} [Inhabited α] (l : List α) (h : l ≠ []) :
    l.headD default ∈ l := by
  rw [headD_eq_getElem l h]
  exact List.getElem_mem _

theorem getLastD_mem {α : Type} [Inhabited α] (l : List α) (h : l ≠ []) :
    l.getLastD default ∈ l := by
  rw [getLastD_eq_getElem l h]
  exact List.getElem_mem _

/-! ### The claims -/

/-- Claim C2: after every sequence of Record calls, in any timestamp
order, every stored sample sequence is sorted non-decreasing by
timestamp. -/
theorem claim2_sorted_after_each_record {s : Store} {tr : List RecordCall}
    (hs : ReachableVia s tr) :
    ∀ d dd, getData s d = some dd → dd.dataPoints.Pairwise tsLe :=
  fun d dd hdd => (reachable_entry hs d dd hdd).2.2.1

theorem claim2_witness :
    ([⟨3, 21⟩, ⟨5, 20⟩] : List DataPoint).Pairwise tsLe := by
  have h1 : ReachableVia [("a", (⟨"s", [⟨5, 20⟩]⟩ : DeviceData))]
      [⟨"a", "s", 5, 20⟩] :=
    ReachableVia.postOk "a" "s" 5 20 ReachableVia.init (by decide)
  have h2 : ReachableVia [("a", (⟨"s", [⟨3, 21⟩, ⟨5, 20⟩]⟩ : DeviceData))]
      [⟨"a", "s", 5, 20⟩, ⟨"a", "s", 3, 21⟩] :=
    ReachableVia.postOk "a" "s" 3 21 h1 (by decide)
  exact claim2_sorted_after_each_record h2 "a" ⟨"s", [⟨3, 21⟩, ⟨5, 20⟩]⟩
    (by decide)

/-- Claim C3 counterexample: the claim asserts InvalidRange regardless of
data presence, but the code checks existence first — on the empty store a
query with end before start returns NotFound, not InvalidRange. -/
theorem claim3_counterexample :
    GetTemperature emptyStore "x" 1 0 = .error "no data for this device ID"
    ∧ GetTemperature emptyStore "x" 1 0 ≠
        .error "end time cannot be before start time" := by
  refine ⟨rfl, ?_⟩
  intro h
  rw [show GetTemperature emptyStore "x" 1 0 =
      Except.error "no data for this device ID" from rfl] at h
  exact absurd (Except.error.inj h) (by decide)

/-- Claim C3 (amended): for every store and non-empty device ID that
exists in the store, a query whose end is strictly before its start
returns the InvalidRange error. -/
theorem claim3_invalid_range {s : Store} {d : String} {dd : DeviceData}
    (hdne : d ≠ "") (hd : getData s d = some dd)
    {startT endT : Time} (h : endT < startT) :
    GetTemperature s d startT endT =
      .error "end time cannot be before start time" := by
  simp only [GetTemperature, hd, if_neg hdne, if_pos h]

theorem claim3_witness :
    GetTemperature [("a", ⟨"s", [⟨0, 20⟩]⟩)] "a" 1 0 =
      .error "end time cannot be before start time" := by
  have hd : getData [("a", (⟨"s", [⟨0, 20⟩]⟩ : DeviceData))] "a" =
      some ⟨"s", [⟨0, 20⟩]⟩ := by decide
  exact claim3_invalid_range (by decide) hd (by decide)

/-- Claim C6: a Record call fails exactly when the device ID or the
device type is empty (the InvalidInput messages); no other condition —
in particular no sample count, the store being universally quantified —
causes an error, and the `MaxDataPoints` capacity constant (10,000) is
never enforced. -/
theorem claim6_record_error_iff (s : Store) (id ty : String)
    (t : Time) (v : Temp) :
    ((PostTemperature s id ty t v).2 = none ↔ id ≠ "" ∧ ty ≠ "")
    ∧ (∀ e, (PostTemperature s id ty t v).2 = some e →
        e = "device ID cannot be empty" ∨ e = "device type cannot be empty")
    ∧ MaxDataPoints = 10000 := by
  refine ⟨?_, ?_, rfl⟩
  · unfold PostTemperature
    by_cases h1 : id = "" <;> by_cases h2 : ty = "" <;> simp [h1, h2]
  · intro e he
    unfold PostTemperature at he
    by_cases h1 : id = "" <;> by_cases h2 : ty = "" <;>
      simp [h1, h2] at he <;> simp [he.symm]

/-- Claim C7: a Record call with an empty device ID or an empty device
type returns the InvalidInput error and leaves the whole store
unchanged. -/
theorem claim7_no_mutation_on_invalid (s : Store) (id ty : String)
    (t : Time) (v : Temp) (h : id = "" ∨ ty = "") :
    (PostTemperature s id ty t v).1 = s
    ∧ ∃ e, (PostTemperature s id ty t v).2 = some e ∧
        (e = "device ID cannot be empty" ∨
          e = "device type cannot be empty") := by
  unfold PostTemperature
  rcases h with h | h
  · simp [h]
  · by_cases h1 : id = "" <;> simp [h1, h]

theorem claim7_witness :
    (PostTemperature [("a", ⟨"s", [⟨5, 20⟩]⟩)] "" "x" 0 0).1 =
      [("a", ⟨"s", [⟨5, 20⟩]⟩)]
    ∧ ∃ e, (PostTemperature [("a", ⟨"s", [⟨5, 20⟩]⟩)] "" "x" 0 0).2 = some e ∧
        (e = "device ID cannot be empty" ∨
          e = "device type cannot be empty") :=
  claim7_no_mutation_on_invalid [("a", ⟨"s", [⟨5, 20⟩]⟩)] "" "x" 0 0
    (by decide)

/-- Claim C10: a successful Record call leaves every other device's
entry unchanged and grows the recorded device's sample count by exactly
one — a duplicate timestamp is retained as an additional sample, never
deduplicated or overwritten. -/
theorem claim10_record_frame {s : Store} {d ty : String} {t : Time}
    {v : Temp} {s2 : Store}
    (h : PostTemperature s d ty t v = (s2, none)) :
    (∀ d2, d2 ≠ d → getData s2 d2 = getData s d2)
    ∧ ∃ dd2, getData s2 d = some dd2 ∧
        dd2.dataPoints.length =
          ((getData s d).getD emptyDeviceData).dataPoints.length + 1 ∧
        dd2.dataPoints.countP (fun p => decide (p.timestamp = t)) =
          ((getData s d).getD emptyDeviceData).dataPoints.countP
            (fun p => decide (p.timestamp = t)) + 1 := by
  obtain ⟨hid, hty, hs2⟩ := post_ok_iff.mp h
  subst hs2
  refine ⟨fun d2 hd2 => getData_setData_ne _ _ hd2,
    _, getData_setData_self .., ?_, ?_⟩
  · rw [(List.perm_insertionSort tsLe _).length_eq, List.length_append]
    rfl
  · rw [(List.perm_insertionSort tsLe _).countP_eq, List.countP_append]
    simp

theorem claim10_witness :
    (∀ d2, d2 ≠ "a" →
      getData [("a", ⟨"u", [⟨5, 20⟩, ⟨5, 21⟩]⟩)] d2 =
        getData [("a", ⟨"s", [⟨5, 20⟩]⟩)] d2)
    ∧ ∃ dd2, getData [("a", ⟨"u", [⟨5, 20⟩, ⟨5, 21⟩]⟩)] "a" = some dd2 ∧
        dd2.dataPoints.length =
          ((getData [("a", ⟨"s", [⟨5, 20⟩]⟩)] "a").getD
            emptyDeviceData).dataPoints.length + 1 ∧
        dd2.dataPoints.countP (fun p => decide (p.timestamp = 5)) =
          ((getData [("a", ⟨"s", [⟨5, 20⟩]⟩)] "a").getD
            emptyDeviceData).dataPoints.countP
            (fun p => decide (p.timestamp = 5)) + 1 := by
  have h : PostTemperature [("a", (⟨"s", [⟨5, 20⟩]⟩ : DeviceData))]
      "a" "u" 5 21 =
      ([("a", (⟨"u", [⟨5, 20⟩, ⟨5, 21⟩]⟩ : DeviceData))], none) := by decide
  exact claim10_record_frame h

/-- Claim C1: on any reachable store holding device `d` with sorted
samples, a query with a valid range that meets the data returns exactly
the samples with timestamps in `[start, end]`, in stored order, paired
with the stored device type; for `start = end = t` these are exactly the
samples whose timestamp equals `t`. -/
theorem claim1_query_range_slice {s : Store} (hs : Reachable s)
    {d : String} {data : DeviceData} (hd : getData s d = some data)
    (hsorted : data.dataPoints.Pairwise tsLe)
    {startT endT : Time} (hrange : startT ≤ endT)
    (hstart : startT ≤ (data.dataPoints.getLastD default).timestamp)
    (hend : (data.dataPoints.headD default).timestamp ≤ endT) :
    GetTemperature s d startT endT =
      .ok ⟨data.deviceType, data.dataPoints.filter (inRange startT endT), d⟩
    ∧ (startT = endT →
        data.dataPoints.filter (inRange startT endT) =
          data.dataPoints.filter (fun p => decide (p.timestamp = startT))) := by
  obtain ⟨tr, htr⟩ := hs
  obtain ⟨hdne, hne, -, -⟩ := reachable_entry htr d data hd
  refine ⟨getTemperature_eq_filter hdne hd hsorted hne hrange hstart hend, ?_⟩
  intro heq
  subst heq
  refine List.filter_congr fun a _ => ?_
  unfold inRange
  rw [decide_eq_decide]
  exact ⟨fun h => le_antisymm h.2 h.1, fun h => ⟨le_of_eq h.symm, le_of_eq h⟩⟩

theorem claim1_witness :
    GetTemperature [("d1", ⟨"sensor", [⟨0, 200⟩, ⟨10, 201⟩, ⟨20, 202⟩]⟩)]
        "d1" 5 15 =
      .ok ⟨"sensor", [⟨10, 201⟩], "d1"⟩ := by
  have h1 : ReachableVia
      [("d1", (⟨"sensor", [⟨0, 200⟩]⟩ : DeviceData))]
      [⟨"d1", "sensor", 0, 200⟩] :=
    ReachableVia.postOk "d1" "sensor" 0 200 ReachableVia.init (by decide)
  have h2 : ReachableVia
      [("d1", (⟨"sensor", [⟨0, 200⟩, ⟨10, 201⟩]⟩ : DeviceData))]
      [⟨"d1", "sensor", 0, 200⟩, ⟨"d1", "sensor", 10, 201⟩] :=
    ReachableVia.postOk "d1" "sensor" 10 201 h1 (by decide)
  have h3 : ReachableVia
      [("d1", (⟨"sensor", [⟨0, 200⟩, ⟨10, 201⟩, ⟨20, 202⟩]⟩ : DeviceData))]
      [⟨"d1", "sensor", 0, 200⟩, ⟨"d1", "sensor", 10, 201⟩,
        ⟨"d1", "sensor", 20, 202⟩] :=
    ReachableVia.postOk "d1" "sensor" 20 202 h2 (by decide)
  have hd : getData
      [("d1", (⟨"sensor", [⟨0, 200⟩, ⟨10, 201⟩, ⟨20, 202⟩]⟩ : DeviceData))]
      "d1" = some ⟨"sensor", [⟨0, 200⟩, ⟨10, 201⟩, ⟨20, 202⟩]⟩ := by decide
  have hrange : (5 : Time) ≤ 15 := by decide
  have hstart : (5 : Time) ≤
      (((⟨"sensor", [⟨0, 200⟩, ⟨10, 201⟩, ⟨20, 202⟩]⟩ :
        DeviceData)).dataPoints.getLastD default).timestamp := by decide
  have hend : (((⟨"sensor", [⟨0, 200⟩, ⟨10, 201⟩, ⟨20, 202⟩]⟩ :
      DeviceData)).dataPoints.headD default).timestamp ≤ (15 : Time) := by
    decide
  have happ := claim1_query_range_slice ⟨_, h3⟩ hd (by decide) hrange
    hstart hend
  rw [happ.1]
  rfl

/-- Claim C5: on a reachable store holding device `d` with at least one
sample, if the range is valid but lies entirely after the last sample or
entirely before the first, the query returns an empty result with no
error whose device ID and device type fields are zero-valued — and this
fast path is the only successful outcome with zero-valued fields. -/
theorem claim5_fast_path {s : Store} (hs : Reachable s)
    {d : String} {data : DeviceData} (hd : getData s d = some data)
    (hne : data.dataPoints ≠ []) (startT endT : Time) :
    (startT ≤ endT →
      ((data.dataPoints.getLastD default).timestamp < startT ∨
        endT < (data.dataPoints.headD default).timestamp) →
      GetTemperature s d startT endT = .ok ⟨"", [], ""⟩)
    ∧ (∀ r, GetTemperature s d startT endT = .ok r →
        (r = ⟨"", [], ""⟩ ↔
          ((data.dataPoints.getLastD default).timestamp < startT ∨
            endT < (data.dataPoints.headD default).timestamp))) := by
  have hlen0 : ¬ data.dataPoints.length = 0 := by
    simpa [List.length_eq_zero] using hne
  obtain ⟨tr, htr⟩ := hs
  obtain ⟨hdne, -, -, -⟩ := reachable_entry htr d data hd
  constructor
  · intro hse hfast
    simp only [GetTemperature, hd, if_neg hdne, if_neg (not_lt.2 hse),
      if_neg hlen0, if_pos hfast]
  · intro r hr
    by_cases hse : endT < startT
    · simp only [GetTemperature, hd, if_neg hdne, if_pos hse] at hr
      exact Except.noConfusion hr
    · by_cases hfast : ((data.dataPoints.getLastD default).timestamp < startT ∨
          endT < (data.dataPoints.headD default).timestamp)
      · simp only [GetTemperature, hd, if_neg hdne, if_neg hse,
          if_neg hlen0, if_pos hfast] at hr
        have hrz : r = ⟨"", [], ""⟩ := (Except.ok.inj hr).symm
        rw [hrz]
        exact iff_of_true rfl hfast
      · simp only [GetTemperature, hd, if_neg hdne, if_neg hse,
          if_neg hlen0, if_neg hfast] at hr
        have hrr := (Except.ok.inj hr).symm
        constructor
        · intro hzero
          rw [hrr] at hzero
          exact absurd (congrArg ResponseBody.deviceID hzero) hdne
        · intro hf
          exact absurd hf hfast

theorem claim5_witness :
    GetTemperature [("a", ⟨"s", [⟨5, 20⟩]⟩)] "a" 10 20 =
      .ok ⟨"", [], ""⟩ := by
  have h1 : ReachableVia [("a", (⟨"s", [⟨5, 20⟩]⟩ : DeviceData))]
      [⟨"a", "s", 5, 20⟩] :=
    ReachableVia.postOk "a" "s" 5 20 ReachableVia.init (by decide)
  have hd : getData [("a", (⟨"s", [⟨5, 20⟩]⟩ : DeviceData))] "a" =
      some ⟨"s", [⟨5, 20⟩]⟩ := by decide
  exact (claim5_fast_path ⟨_, h1⟩ hd (by decide) 10 20).1 (by decide)
    (by decide)

/-- Claim C8 counterexample: the empty device ID is never recorded (a
Record for it always fails), yet querying it — here on the reachable
empty store — returns the InvalidInput error, not NotFound, refuting the
claim for that device ID. -/
theorem claim8_counterexample :
    ReachableVia emptyStore []
    ∧ (∀ c ∈ ([] : List RecordCall), c.id ≠ "")
    ∧ GetTemperature emptyStore "" 0 0 ≠ .error "no data for this device ID"
    ∧ GetTemperature emptyStore "" 0 0 =
        .error "device ID cannot be empty" := by
  refine ⟨ReachableVia.init, by simp, ?_, rfl⟩
  intro h
  rw [show GetTemperature emptyStore "" 0 0 =
      Except.error "device ID cannot be empty" from rfl] at h
  exact absurd (Except.error.inj h) (by decide)

/-- Claim C8 (amended): in every reachable store, a device ID is a key
iff some Record call for it succeeded, every stored record holds at
least one sample, and querying a never-recorded NON-EMPTY device ID
returns the NotFound error (the empty ID instead fails the earlier
InvalidInput check). -/
theorem claim8_keys_iff_recorded {s : Store} {tr : List RecordCall}
    (hs : ReachableVia s tr) (d : String) :
    ((∃ dd, getData s d = some dd) ↔ ∃ c ∈ tr, c.id = d)
    ∧ (∀ dd, getData s d = some dd → dd.dataPoints ≠ [])
    ∧ (d ≠ "" → (∀ c ∈ tr, c.id ≠ d) → ∀ startT endT,
        GetTemperature s d startT endT =
          .error "no data for this device ID") := by
  refine ⟨reachable_keys hs d,
    fun dd hdd => (reachable_entry hs d dd hdd).2.1, ?_⟩
  intro hdne hnever startT endT
  have hnone : getData s d = none := by
    cases hget : getData s d with
    | none => rfl
    | some dd =>
      obtain ⟨c, hc, hcd⟩ := (reachable_keys hs d).mp ⟨dd, hget⟩
      exact absurd hcd (hnever c hc)
  simp only [GetTemperature, hnone, if_neg hdne]

theorem claim8_witness :
    ((∃ dd, getData [("a", ⟨"s", [⟨5, 20⟩]⟩)] "b" = some dd) ↔
      ∃ c ∈ ([⟨"a", "s", 5, 20⟩] : List RecordCall), c.id = "b")
    ∧ (∀ dd, getData [("a", ⟨"s", [⟨5, 20⟩]⟩)] "b" = some dd →
        dd.dataPoints ≠ [])
    ∧ ("b" ≠ "" → (∀ c ∈ ([⟨"a", "s", 5, 20⟩] : List RecordCall),
          c.id ≠ "b") → ∀ startT endT,
        GetTemperature [("a", ⟨"s", [⟨5, 20⟩]⟩)] "b" startT endT =
          .error "no data for this device ID") := by
  have h1 : ReachableVia [("a", (⟨"s", [⟨5, 20⟩]⟩ : DeviceData))]
      [⟨"a", "s", 5, 20⟩] :=
    ReachableVia.postOk "a" "s" 5 20 ReachableVia.init (by decide)
  exact claim8_keys_iff_recorded h1 "b"

/-- Claim C9: in every reachable store, the stored device type equals
the type supplied by the most recent successful Record call for that
device, and a further Record under the same ID with any other non-empty
type succeeds and overwrites the stored type. -/
theorem claim9_type_last_write_wins {s : Store} {tr : List RecordCall}
    (hs : ReachableVia s tr) :
    (∀ d dd, getData s d = some dd →
      ∃ c, (tr.filter (fun c => decide (c.id = d))).getLast? = some c ∧
        dd.deviceType = c.ty)
    ∧ (∀ d dd, getData s d = some dd → ∀ ty2, ty2 ≠ "" → ∀ t v,
        ∃ s2, PostTemperature s d ty2 t v = (s2, none) ∧
          ∃ dd2, getData s2 d = some dd2 ∧ dd2.deviceType = ty2) := by
  constructor
  · exact fun d dd hdd => (reachable_entry hs d dd hdd).2.2.2
  · intro d dd hdd ty2 hty2 t v
    have hdne := (reachable_entry hs d dd hdd).1
    exact ⟨_, post_ok_iff.mpr ⟨hdne, hty2, rfl⟩,
      _, getData_setData_self .., rfl⟩

theorem claim9_witness :
    ∃ c, (([⟨"a", "s", 5, 20⟩, ⟨"a", "u", 3, 21⟩] : List RecordCall).filter
        (fun c => decide (c.id = "a"))).getLast? = some c ∧
      (⟨"u", [⟨3, 21⟩, ⟨5, 20⟩]⟩ : DeviceData).deviceType = c.ty := by
  have h1 : ReachableVia [("a", (⟨"s", [⟨5, 20⟩]⟩ : DeviceData))]
      [⟨"a", "s", 5, 20⟩] :=
    ReachableVia.postOk "a" "s" 5 20 ReachableVia.init (by decide)
  have h2 : ReachableVia [("a", (⟨"u", [⟨3, 21⟩, ⟨5, 20⟩]⟩ : DeviceData))]
      [⟨"a", "s", 5, 20⟩, ⟨"a", "u", 3, 21⟩] :=
    ReachableVia.postOk "a" "u" 3 21 h1 (by decide)
  exact (claim9_type_last_write_wins h2).1 "a" ⟨"u", [⟨3, 21⟩, ⟨5, 20⟩]⟩
    (by decide)

/-- Claim C4: recording N samples with distinct timestamps for one device
(from the freshly initialized store) and querying the device over
`[minimum timestamp, maximum timestamp]` returns exactly those N samples
— a sorted-by-timestamp permutation of the recorded data points, values
unchanged. -/
theorem claim4_roundtrip (calls : List RecordCall) (d : String)
    (hd : d ≠ "") (hne : calls ≠ [])
    (hcalls : ∀ c ∈ calls, c.id = d ∧ c.ty ≠ "")
    (hnodup : (calls.map RecordCall.t).Nodup)
    (tmin tmax : Time)
    (hminmem : tmin ∈ calls.map RecordCall.t)
    (hminle : ∀ x ∈ calls.map RecordCall.t, tmin ≤ x)
    (hmaxmem : tmax ∈ calls.map RecordCall.t)
    (hmaxle : ∀ x ∈ calls.map RecordCall.t, x ≤ tmax) :
    ∃ ty l, GetTemperature (runPosts emptyStore calls) d tmin tmax =
        .ok ⟨ty, l, d⟩
      ∧ l.Perm (calls.map RecordCall.sample)
      ∧ l.Pairwise tsLe := by
  obtain ⟨c, rest, rfl⟩ : ∃ c rest, calls = c :: rest := by
    cases calls with
    | nil => exact absurd rfl hne
    | cons c rest => exact ⟨c, rest, rfl⟩
  obtain ⟨hcid, hcty⟩ := hcalls c (by simp)
  have hpost : PostTemperature emptyStore c.id c.ty c.t c.v =
      (setData emptyStore c.id ⟨c.ty, [⟨c.t, c.v⟩]⟩, none) := by
    rw [post_ok_iff]
    exact ⟨by rw [hcid]; exact hd, hcty, rfl⟩
  have hget1 : getData (PostTemperature emptyStore c.id c.ty c.t c.v).1 d =
      some ⟨c.ty, [⟨c.t, c.v⟩]⟩ := by
    rw [hpost, show c.id = d from hcid]
    exact getData_setData_self ..
  obtain ⟨dd, hdd, hperm, hsortimp⟩ :=
    runPosts_entry hd rest (PostTemperature emptyStore c.id c.ty c.t c.v).1
      ⟨c.ty, [⟨c.t, c.v⟩]⟩ hget1 (fun c2 h2 => hcalls c2 (by simp [h2]))
  have hsorted : dd.dataPoints.Pairwise tsLe := hsortimp (by simp)
  have hperm2 : dd.dataPoints.Perm ((c :: rest).map RecordCall.sample) :=
    hperm
  have hget : getData (runPosts emptyStore (c :: rest)) d = some dd := by
    rw [runPosts_cons]
    exact hdd
  have hbounds : ∀ p ∈ dd.dataPoints,
      tmin ≤ p.timestamp ∧ p.timestamp ≤ tmax := by
    intro p hp
    obtain ⟨c2, hc2, hpc2⟩ := List.mem_map.mp (hperm2.mem_iff.mp hp)
    have hts : p.timestamp = c2.t := by rw [← hpc2]; rfl
    have hmem : c2.t ∈ (c :: rest).map RecordCall.t :=
      List.mem_map_of_mem RecordCall.t hc2
    rw [hts]
    exact ⟨hminle _ hmem, hmaxle _ hmem⟩
  have hne2 : dd.dataPoints ≠ [] := by
    apply List.length_pos.mp
    rw [hperm2.length_eq]
    simp
  have hminmax : tmin ≤ tmax := hmaxle tmin hminmem
  have hstart : tmin ≤ (dd.dataPoints.getLastD default).timestamp :=
    (hbounds _ (getLastD_mem _ hne2)).1
  have hend : (dd.dataPoints.headD default).timestamp ≤ tmax :=
    (hbounds _ (headD_mem _ hne2)).2
  have happ := getTemperature_eq_filter hd hget hsorted hne2 hminmax
    hstart hend
  have hfilter : dd.dataPoints.filter (inRange tmin tmax) =
      dd.dataPoints := by
    rw [List.filter_eq_self]
    intro p hp
    unfold inRange
    exact decide_eq_true (hbounds p hp)
  refine ⟨dd.deviceType, dd.dataPoints, ?_, hperm2, hsorted⟩
  rw [happ, hfilter]

theorem claim4_witness :
    ∃ ty l, GetTemperature
        (runPosts emptyStore [⟨"a", "s", 5, 20⟩, ⟨"a", "s", 3, 21⟩])
        "a" 3 5 = .ok ⟨ty, l, "a"⟩
      ∧ l.Perm ([⟨"a", "s", 5, 20⟩, ⟨"a", "s", 3, 21⟩].map
          RecordCall.sample)
      ∧ l.Pairwise tsLe :=
  claim4_roundtrip [⟨"a", "s", 5, 20⟩, ⟨"a", "s", 3, 21⟩] "a" (by decide)
    (by decide) (by decide) (by decide) 3 5 (by decide) (by decide)
    (by decide) (by decide)

end TemperatureApi
